import Mathlib

/-!
Verification of the audio rendering core of Andromeda (a MIDI sequencer).
Shallow embedding of `src/audio/prerenderer.rs` and `src/audio/playback.rs`:
machine floats (`f32`) are modelled as exact rationals, machine integers as
`Nat`/`Int` (Rust signed division `/` truncates toward zero, i.e. `Int.div`).
-/

namespace Andromeda

/-- Rust `usize as i32`: truncate to the low 32 bits and reinterpret as
two's-complement signed. -/
def usizeToI32 (n : ℕ) : ℤ :=
  if n % 2 ^ 32 < 2 ^ 31 then ((n % 2 ^ 32 : ℕ) : ℤ)
  else ((n % 2 ^ 32 : ℕ) : ℤ) - 2 ^ 32

/-- Two's-complement wrap of an integer into the i32 range `[-2^31, 2^31)`
(release-mode overflow semantics of i32 arithmetic). -/
def wrapI32 (z : ℤ) : ℤ := (z + 2 ^ 31) % 2 ^ 32 - 2 ^ 31

/-- `PrerenderBuffer::get_skipping_velocity` (prerenderer.rs lines 227-234).
`wr`/`rd` are the `write_pos`/`read_pos` atomics (usize, frame units).
Line 230 casts each cursor to i32 (wrapping at `2^31`) and subtracts in i32
(wrapping, release semantics); Rust i32 division truncates toward zero
(`Int.tdiv`). The remaining arithmetic `127 + 10 - q` has `|q| ≤ 21474836`
and cannot overflow i32, so it needs no further wrap. -/
def get_skipping_velocity (wr rd : ℕ) : ℕ :=
  let diff : ℤ := 127 + 10 - Int.tdiv (wrapI32 (usizeToI32 wr - usizeToI32 rd)) 100
  let diff := if diff > 127 then 127 else diff
  let diff := if diff < 0 then 0 else diff
  diff.toNat

/-- The spec's formula `clamp(127 + 10 - runAhead/100, 0, 127)` over the
integer run-ahead `writeCursor - readCursor`, division truncating. -/
def specSkipThreshold (wr rd : ℕ) : ℕ :=
  (min 127 (max 0 (127 + 10 - Int.tdiv ((wr : ℤ) - (rd : ℤ)) 100))).toNat

lemma usizeToI32_of_lt (n : ℕ) (h : n < 2 ^ 31) : usizeToI32 n = (n : ℤ) := by
  unfold usizeToI32
  rw [Nat.mod_eq_of_lt (show n < 2 ^ 32 by omega), if_pos h]

lemma wrapI32_of_range (z : ℤ) (h1 : -2 ^ 31 ≤ z) (h2 : z < 2 ^ 31) :
    wrapI32 z = z := by
  unfold wrapI32; omega

lemma gsv_eq_spec (wr rd : ℕ) (hwr : wr < 2 ^ 31) (hrd : rd < 2 ^ 31) :
    get_skipping_velocity wr rd = specSkipThreshold wr rd := by
  unfold get_skipping_velocity specSkipThreshold
  rw [usizeToI32_of_lt wr hwr, usizeToI32_of_lt rd hrd,
    wrapI32_of_range ((wr : ℤ) - (rd : ℤ)) (by omega) (by omega)]
  set k : ℤ := Int.tdiv ((wr : ℤ) - (rd : ℤ)) 100 with hk
  simp only []
  split_ifs <;> omega

lemma tdiv_natCast (d : ℕ) : Int.tdiv (d : ℤ) 100 = ((d / 100 : ℕ) : ℤ) :=
  (Int.ofNat_tdiv d 100).symm

lemma gsv_runAhead (rd d : ℕ) (hbound : rd + d < 2 ^ 31) :
    get_skipping_velocity (rd + d) rd = min 127 (137 - d / 100) := by
  rw [gsv_eq_spec (rd + d) rd hbound (by omega)]
  unfold specSkipThreshold
  have h1 : ((rd + d : ℕ) : ℤ) - (rd : ℤ) = (d : ℤ) := by push_cast; ring
  rw [h1, tdiv_natCast]
  omega

/-- Counterexample to C3: at the cursor pair `(2^31, 0)` — reachable, the
cursors are monotonically increasing usize counters — the wrapping
`usize as i32` cast at line 230 makes the code see a run-ahead of `-2^31`
and return 127, while the claimed clamp formula over the true run-ahead
gives 0; in particular the threshold is not globally non-increasing in the
run-ahead (run-ahead 12700 yields 10 < 127). -/
theorem skipping_velocity_wrap_counterexample :
    get_skipping_velocity (2 ^ 31) 0 = 127 ∧
    specSkipThreshold (2 ^ 31) 0 = 0 ∧
    ¬ (get_skipping_velocity (2 ^ 31) 0 ≤ get_skipping_velocity 12700 0) := by
  refine ⟨by decide, by decide, by decide⟩

/-- C3 amended: for cursor values below `2^31` — where the `usize as i32`
casts of line 230 are value-preserving and the i32 subtraction cannot
wrap — `get_skipping_velocity` returns exactly
`clamp(127 + 10 - (writeCursor - readCursor)/100, 0, 127)` with truncating
integer division; the result always lies in `[0, 127]` (for all cursor
values, wrapping or not); and it is non-increasing in the run-ahead within
that range, in particular over the run-ahead values `0, 1000, 12700,
20000`. -/
theorem skipping_velocity_in_range :
    (∀ wr rd : ℕ, wr < 2 ^ 31 → rd < 2 ^ 31 →
       get_skipping_velocity wr rd = specSkipThreshold wr rd) ∧
    (∀ wr rd : ℕ, get_skipping_velocity wr rd ≤ 127) ∧
    (∀ rd d₁ d₂ : ℕ, d₁ ≤ d₂ → rd + d₂ < 2 ^ 31 →
       get_skipping_velocity (rd + d₂) rd ≤ get_skipping_velocity (rd + d₁) rd) ∧
    (get_skipping_velocity 20000 0 ≤ get_skipping_velocity 12700 0 ∧
     get_skipping_velocity 12700 0 ≤ get_skipping_velocity 1000 0 ∧
     get_skipping_velocity 1000 0 ≤ get_skipping_velocity 0 0) := by
  refine ⟨gsv_eq_spec, fun wr rd => ?_, fun rd d₁ d₂ h hbound => ?_,
    by decide, by decide, by decide⟩
  · unfold get_skipping_velocity
    set k : ℤ := Int.tdiv (wrapI32 (usizeToI32 wr - usizeToI32 rd)) 100 with hk
    simp only []
    split_ifs <;> omega
  · rw [gsv_runAhead rd d₂ hbound, gsv_runAhead rd d₁ (by omega)]
    have : d₁ / 100 ≤ d₂ / 100 := Nat.div_le_div_right h
    omega

/-- Witness for C3's amended statement: the formula equality at the in-range
pair `(12700, 0)` and the monotonicity conjunct at run-ahead values
`1000 ≤ 12700`, discharging every hypothesis concretely. -/
theorem skipping_velocity_in_range_witness :
    get_skipping_velocity 12700 0 = specSkipThreshold 12700 0 ∧
    get_skipping_velocity (0 + 12700) 0 ≤ get_skipping_velocity (0 + 1000) 0 :=
  ⟨skipping_velocity_in_range.1 12700 0 (by norm_num) (by norm_num),
   skipping_velocity_in_range.2.2.1 0 1000 12700 (by norm_num) (by norm_num)⟩

/-! ## Ring buffer cursors (prerenderer.rs)

`PrerenderBuffer` stores `read_pos`/`write_pos` as frame-unit atomics and the
sample storage as a `Vec<f32>` of length `L` samples (so the frame capacity
`lengthFrames` is `L / 2`, and the producer's throttle bound
`read_pos + buf_len / 2` at line 149 is `read_pos + lengthFrames`). -/

/-- Cursor state of `PrerenderBuffer`: `w` is `write_pos`, `r` is `read_pos`,
both in stereo frames. -/
structure RB where
  w : ℕ
  r : ℕ
deriving DecidableEq

/-- Frame capacity of a buffer of `L` f32 samples (`buf.len() / 2`, the
modulus used at line 400; a stereo frame is two floats). -/
def lengthFrames (L : ℕ) : ℕ := L / 2

/-- One cursor transition, for a buffer of `L` samples.
`write k`: an uncancelled producer write of `k` frames — either an in-loop
spare write (lines 157-158, where `k = spare ≤ read_pos + L/2 - write_pos`)
or the final write after the throttle loop exits normally (lines 167-170,
where the loop condition `write_pos + remaining > read_pos + L/2` is false) —
so every such write satisfies `w + k ≤ r + L/2`.
`read k`: the consumer callback advancing `read_pos` by the block length
unconditionally (lines 426-427). -/
inductive RBStep (L : ℕ) : RB → RB → Prop
  | write (s : RB) (k : ℕ) (hk : 0 < k) (hcap : s.w + k ≤ s.r + L / 2) :
      RBStep L s ⟨s.w + k, s.r⟩
  | read (s : RB) (k : ℕ) (hk : 0 < k) : RBStep L s ⟨s.w, s.r + k⟩

/-- States reachable from the reset cursors `(0, 0)` (lines 130-131) by
uncancelled producer writes and consumer reads. -/
inductive RBReachable (L : ℕ) : RB → Prop
  | init : RBReachable L ⟨0, 0⟩
  | step {s t : RB} : RBReachable L s → RBStep L s t → RBReachable L t

/-- Counterexample to C1: with an 8-sample (4-frame) buffer, the state
`(w, r) = (4, 0)` is reachable by a single producer write, and there
`writeCursor - readCursor = 4 > lengthFrames/2 = 2`; the state
`(w, r) = (0, 2)` is reachable by a single consumer read, and there
`writeCursor - readCursor = -2 < 0`. So the claimed invariant
`0 ≤ w - r ≤ lengthFrames/2` fails on reachable states. -/
theorem ring_cursor_claim_counterexample :
    (RBReachable 8 ⟨4, 0⟩ ∧
      ¬ (((4 : ℤ) - 0 : ℤ) ≤ (lengthFrames 8 / 2 : ℕ))) ∧
    (RBReachable 8 ⟨0, 2⟩ ∧ ¬ ((0 : ℤ) ≤ (0 : ℤ) - 2)) := by
  refine ⟨⟨?_, by decide⟩, ⟨?_, by decide⟩⟩
  · exact RBReachable.step RBReachable.init
      (RBStep.write ⟨0, 0⟩ 4 (by decide) (by decide))
  · exact RBReachable.step RBReachable.init (RBStep.read ⟨0, 0⟩ 2 (by decide))

/-- C1 amended: the producer-side backpressure bound of the code is the full
frame capacity `lengthFrames = buf_len/2` (line 149 compares frame cursors
against `read_pos + buf_len/2` where `buf_len` counts f32 samples), not
`lengthFrames/2`; and `writeCursor - readCursor` can go negative because the
consumer advances `readCursor` unconditionally on underrun. What holds in
every reachable state (uncancelled writes) is
`writeCursor ≤ readCursor + lengthFrames`. -/
theorem ring_cursor_bound (L : ℕ) (s : RB) (h : RBReachable L s) :
    s.w ≤ s.r + lengthFrames L := by
  induction h with
  | init => simp [lengthFrames]
  | step _ hs ih =>
    cases hs with
    | write k hk hcap => simpa [lengthFrames] using hcap
    | read k hk => simp only [lengthFrames] at ih ⊢; omega

/-- Witness for C1's amended bound at the reachable state `(4, 0)`, `L = 8`. -/
theorem ring_cursor_bound_witness : (4 : ℕ) ≤ 0 + lengthFrames 8 :=
  ring_cursor_bound 8 ⟨4, 0⟩
    (RBReachable.step RBReachable.init
      (RBStep.write ⟨0, 0⟩ 4 (by decide) (by decide)))

/-! ## Consumer callback ring-buffer read (prerenderer.rs lines 396-427) -/

/-- Shared state seen by the consumer: the raw sample storage (`buffer`,
a `Vec<f32>` modelled with exact rationals) and the two frame cursors. -/
structure ConsState where
  buf : List ℚ
  readPos : ℕ
  writePos : ℕ
deriving DecidableEq

/-- The `RenderMode::Rendering` branch of the output callback without a reset
in flight (lines 396-427): `count` is `data.len()` (samples).
`read = read_pos % (buf.len() / 2)`; if `read_pos + count/2 > write_pos`,
`copy_count = read_pos - (write_pos + count/2)` (isize arithmetic), clamped
above by `count/2` and below by `0`; `copy_count*2` samples are copied from
`buf[(i + read*2) % buf.len()]` and the rest of the block is zero-filled;
otherwise the whole block is copied. Finally `read_pos += data.len()/2`. -/
def consumerRender (s : ConsState) (count : ℕ) : List ℚ × ConsState :=
  let read := s.readPos % (s.buf.length / 2)
  let data :=
    if s.readPos + count / 2 > s.writePos then
      let cc0 : ℤ := (s.readPos : ℤ) - ((s.writePos : ℤ) + (count / 2 : ℕ))
      let cc1 : ℤ := if cc0 > ((count / 2 : ℕ) : ℤ) then ((count / 2 : ℕ) : ℤ) else cc0
      let cc : ℤ := if cc1 > 0 then cc1 else 0
      (List.range count).map (fun (i : ℕ) =>
        if ((i : ℤ)) < cc * 2 then s.buf.getD ((i + read * 2) % s.buf.length) 0 else 0)
    else
      (List.range count).map (fun i => s.buf.getD ((i + read * 2) % s.buf.length) 0)
  (data, { s with readPos := s.readPos + count / 2 })

/-- The read behavior C2 claims, following the spec's words: copy exactly
`min(requestedFrames, writeCursor - readCursor)` frames — the frames actually
available — from storage (wrapping at the physical end), zero-fill the rest. -/
def specConsumerData (s : ConsState) (count : ℕ) : List ℚ :=
  let read := s.readPos % (s.buf.length / 2)
  let avail := min (count / 2) (s.writePos - s.readPos)
  (List.range count).map (fun i =>
    if i < avail * 2 then s.buf.getD ((i + read * 2) % s.buf.length) 0 else 0)

/-- C2 evaluated at the failing input: storage of 20 frames all holding
sample value 1, `readPos = 0`, `writePos = 5` (5 frames available), a block
of 10 frames requested. The code zero-fills the entire block (its
`copy_count = read_pos - (write_pos + count/2) = -15` clamps to 0), while the
claim says the 5 available frames are copied and only the rest zero-filled. -/
theorem consumer_underrun_copy_divergence :
    (consumerRender ⟨List.replicate 40 1, 0, 5⟩ 20).1 = List.replicate 20 0 ∧
    specConsumerData ⟨List.replicate 40 1, 0, 5⟩ 20 =
      List.replicate 10 1 ++ List.replicate 10 0 := by decide

/-- C7: in Prerendering mode with no reset in flight, every consumer-callback
invocation advances `readCursor` by exactly the full requested block length
in frames (`data.len() / 2`), regardless of how many frames were available;
the write cursor and the storage are untouched. -/
theorem consumer_advances_read_by_full_block (s : ConsState) (count : ℕ) :
    (consumerRender s count).2.readPos = s.readPos + count / 2 ∧
    (consumerRender s count).2.writePos = s.writePos ∧
    (consumerRender s count).2.buf = s.buf := by
  refine ⟨rfl, rfl, rfl⟩

/-! ## Limiter (prerenderer.rs lines 16-88) -/

/-- State of `Limiter` (f32 fields modelled as exact rationals). -/
structure Limiter where
  loudness_l : ℚ
  loudness_r : ℚ
  velocity_l : ℚ
  velocity_r : ℚ
  attack : ℚ
  falloff : ℚ
  strength : ℚ
  min_thresh : ℚ
deriving DecidableEq

/-- One iteration of the loop body of `Limiter::apply_limiter`
(lines 45-86) on the stereo frame `(a, b) = (buffer[i], buffer[i+1])`;
`first` is true for `i = 0` (the `i != 0` guard skips the velocity update). -/
def limiterFrame (st : Limiter) (first : Bool) (a b : ℚ) : (ℚ × ℚ) × Limiter :=
  let l0 := |a|
  let r0 := |b|
  let ll := if st.loudness_l > l0 then (st.loudness_l * st.falloff + l0) / (st.falloff + 1)
            else (st.loudness_l * st.attack + l0) / (st.attack + 1)
  let lr := if st.loudness_r > r0 then (st.loudness_r * st.falloff + r0) / (st.falloff + 1)
            else (st.loudness_r * st.attack + r0) / (st.attack + 1)
  let ll := if ll < st.min_thresh then st.min_thresh else ll
  let lr := if lr < st.min_thresh then st.min_thresh else lr
  let l := a / (ll * st.strength + 2 * (1 - st.strength)) / 2
  let r := b / (lr * st.strength + 2 * (1 - st.strength)) / 2
  let vlr :=
    if first then (st.velocity_l, st.velocity_r)
    else
      let dl := |a - l|
      let dr := |b - r|
      let vl := if st.velocity_l > dl then (st.velocity_l * st.falloff + dl) / (st.falloff + 1)
                else (st.velocity_l * st.attack + dl) / (st.attack + 1)
      let vr := if st.velocity_r > dr then (st.velocity_r * st.falloff + dr) / (st.falloff + 1)
                else (st.velocity_r * st.attack + dr) / (st.attack + 1)
      (vl, vr)
  ((l, r), { st with loudness_l := ll, loudness_r := lr,
                     velocity_l := vlr.1, velocity_r := vlr.2 })

/-- The `for i in (0..count).step_by(2)` loop of `apply_limiter`, walking the
interleaved block two samples at a time. A leftover odd sample is returned
unchanged (the source would index out of bounds there; blocks are stereo). -/
def applyLimiterGo (st : Limiter) (first : Bool) : List ℚ → List ℚ × Limiter
  | a :: b :: rest =>
    let p := limiterFrame st first a b
    let q := applyLimiterGo p.2 false rest
    (p.1.1 :: p.1.2 :: q.1, q.2)
  | rest => (rest, st)

/-- `Limiter::apply_limiter` (lines 43-87): limits the block in place;
returns the transformed block together with the mutated limiter state. -/
def apply_limiter (st : Limiter) (buffer : List ℚ) : List ℚ × Limiter :=
  applyLimiterGo st true buffer

/-- `RenderMode` (prerenderer.rs lines 10-14). -/
inductive RenderMode
  | Realtime
  | Rendering
deriving DecidableEq

/-- The cpal output callback built in `PrerenderedAudio::build_stream`
(lines 382-431), as a function of the shared state it reads: the render
mode, the `reset_requested` flag `rr`, the samples the synthesis engine
would write in realtime mode (`synthOut`, external capability), the
ring-buffer state, the block sample count, and the limiter. Returns the
output block handed to the device, the new ring-buffer state, and the new
limiter state. In `Rendering` mode with `rr` set, the callback fills the
block with zeros and returns early (lines 391-394) — before the
`apply_limiter` call at line 430. -/
def audioCallback (mode : RenderMode) (rr : Bool) (synthOut : List ℚ)
    (s : ConsState) (count : ℕ) (lim : Limiter) : List ℚ × ConsState × Limiter :=
  match mode with
  | .Realtime =>
    let p := apply_limiter lim synthOut
    (p.1, s, p.2)
  | .Rendering =>
    if rr then (List.replicate count 0, s, lim)
    else
      let q := consumerRender s count
      let p := apply_limiter lim q.1
      (p.1, q.2, p.2)

/-- The block as populated before the limiter, per C9: the synth's samples in
Realtime mode, silence when a reset is in flight, otherwise the ring-buffer
read. -/
def populatedBlock (mode : RenderMode) (rr : Bool) (synthOut : List ℚ)
    (s : ConsState) (count : ℕ) : List ℚ :=
  match mode with
  | .Realtime => synthOut
  | .Rendering => if rr then List.replicate count 0 else (consumerRender s count).1

/-- Counterexample to C9: in Prerendering mode with a reset in flight the
callback returns silence without applying the limiter (the early `return` at
line 393 skips line 430), so the limiter state is left untouched, whereas
applying the limiter to the silent block would decay its envelope: with
`loudness_l = 1`, `falloff = 1`, a two-sample silent block drops
`loudness_l` to `1/2`. -/
theorem limiter_skipped_on_reset_counterexample :
    (audioCallback .Rendering true [] ⟨[], 0, 0⟩ 2
        ⟨1, 1, 0, 0, 0, 1, 1, 2/5⟩).2.2 ≠
      (apply_limiter ⟨1, 1, 0, 0, 0, 1, 1, 2/5⟩
        (populatedBlock .Rendering true [] ⟨[], 0, 0⟩ 2)).2 := by
  norm_num [audioCallback, apply_limiter, applyLimiterGo, limiterFrame,
    populatedBlock, List.replicate, Limiter.mk.injEq]

/-- C9 amended: the limiter is applied to the populated block, in place,
before the block is handed to the device in Realtime mode and in Prerendering
mode without a reset in flight; when a reset is in flight the callback
returns silence early and the limiter is not applied (its state is
unchanged). -/
theorem limiter_applied_unless_reset (mode : RenderMode) (rr : Bool)
    (synthOut : List ℚ) (s : ConsState) (count : ℕ) (lim : Limiter)
    (h : mode = RenderMode.Realtime ∨ rr = false) :
    (audioCallback mode rr synthOut s count lim).1 =
      (apply_limiter lim (populatedBlock mode rr synthOut s count)).1 ∧
    (audioCallback mode rr synthOut s count lim).2.2 =
      (apply_limiter lim (populatedBlock mode rr synthOut s count)).2 := by
  rcases h with h | h
  · subst h; exact ⟨rfl, rfl⟩
  · subst h; cases mode <;> exact ⟨rfl, rfl⟩

/-- Witness for C9's amended statement: Prerendering mode, no reset, a
one-frame block read from a one-frame buffer. -/
theorem limiter_applied_unless_reset_witness :
    (audioCallback .Rendering false [] ⟨[1, 1], 0, 1⟩ 2
        ⟨1, 1, 0, 0, 0, 1, 1, 2/5⟩).1 =
      (apply_limiter ⟨1, 1, 0, 0, 0, 1, 1, 2/5⟩
        (populatedBlock .Rendering false [] ⟨[1, 1], 0, 1⟩ 2)).1 ∧
    (audioCallback .Rendering false [] ⟨[1, 1], 0, 1⟩ 2
        ⟨1, 1, 0, 0, 0, 1, 1, 2/5⟩).2.2 =
      (apply_limiter ⟨1, 1, 0, 0, 0, 1, 1, 2/5⟩
        (populatedBlock .Rendering false [] ⟨[1, 1], 0, 1⟩ 2)).2 :=
  limiter_applied_unless_reset .Rendering false [] ⟨[1, 1], 0, 1⟩ 2
    ⟨1, 1, 0, 0, 0, 1, 1, 2/5⟩ (Or.inr rfl)

/-! ## Tempo map and playback clock (playback.rs, midi/events.rs) -/

/-- `TempoEvent` (midi/events.rs lines 1-5): `time` is the tick (u64),
`time_norm` the event's absolute position in seconds (f32, as ℚ), `tempo`
the BPM figure (f32, as ℚ). -/
structure TempoEvent where
  time : ℕ
  time_norm : ℚ
  tempo : ℚ
deriving DecidableEq

/-- `sec_per_tick` as computed inside `Playback::tick_to_secs`
(lines 85-86 and 93-94): `us_per_qn = 60000000 / last_tempo`,
`sec_per_tick = us_per_qn / 1000000 / ppq`. -/
def sec_per_tick (ppq lastTempo : ℚ) : ℚ := 60000000 / lastTempo / 1000000 / ppq

/-- The `for i in 1..len` loop of `Playback::tick_to_secs` (lines 78-90)
followed by the final segment (lines 92-98). State: `lastTick` (`last_tick`,
u64; the source's u64 subtraction `ev.time - last_tick` requires
`ev.time ≥ last_tick`, supplied by sorted inputs, and is modelled as cast
subtraction in ℚ), `lastTempo` (`last_tempo`), `seconds`. The loop breaks at
the first event with `ev.time as f32 > tick`. -/
def ttsGo (ppq tick : ℚ) : List TempoEvent → ℕ → ℚ → ℚ → ℚ
  | [], lastTick, lastTempo, seconds =>
      seconds + (tick - (lastTick : ℚ)) * sec_per_tick ppq lastTempo
  | ev :: rest, lastTick, lastTempo, seconds =>
      if (ev.time : ℚ) > tick then
        seconds + (tick - (lastTick : ℚ)) * sec_per_tick ppq lastTempo
      else
        ttsGo ppq tick rest ev.time ev.tempo
          (seconds + ((ev.time : ℚ) - (lastTick : ℚ)) * sec_per_tick ppq lastTempo)

/-- `Playback::tick_to_secs` (lines 69-99): with no tempo events, falls back
to 120 BPM (`tick / (ppq * 120 / 60)`); otherwise walks segments starting
from `last_tick = 0`, `last_tempo = tempo_events[0].tempo`, `seconds = 0`. -/
def tick_to_secs (tes : List TempoEvent) (ppq tick : ℚ) : ℚ :=
  match tes with
  | [] => tick / (ppq * 120 / 60)
  | e0 :: rest => ttsGo ppq tick rest 0 e0.tempo 0

/-- The `for tempo in self.tempo_events.iter()` loop of
`Playback::get_playback_time` (lines 58-63): walks every event whose
`time_norm ≤ time`, tracking `(last_time, last_tick, bpm)`. -/
def gptGo (time : ℚ) : List TempoEvent → ℚ → ℕ → ℚ → ℚ × ℕ × ℚ
  | [], lastTime, lastTick, bpm => (lastTime, lastTick, bpm)
  | ev :: rest, lastTime, lastTick, bpm =>
      if ev.time_norm > time then (lastTime, lastTick, bpm)
      else gptGo time rest ev.time_norm ev.time ev.tempo

/-- The projection at lines 65-66 of `get_playback_time`:
`tick_pos = (time - last_time) * (ppq * bpm / 60); tick_pos + last_tick`. -/
def gptProj (ppq time : ℚ) (res : ℚ × ℕ × ℚ) : ℚ :=
  (time - res.1) * (ppq * res.2.2 / 60) + (res.2.1 : ℚ)

/-- The seconds→tick conversion of `Playback::get_playback_time`
(lines 48-67), as a function of the live position `time` in seconds (the
source computes `time = time_delta.elapsed() + last_pos`; the wall clock is
passed in explicitly). With no tempo events: `time * (ppq * 120 / 60)`;
otherwise the loop starts from the first event's values and projects
`(time - last_time) * (ppq * bpm / 60) + last_tick`. -/
def get_playback_time (tes : List TempoEvent) (ppq time : ℚ) : ℚ :=
  match tes with
  | [] => time * (ppq * 120 / 60)
  | e0 :: _ => gptProj ppq time (gptGo time tes e0.time_norm e0.time e0.tempo)

/-- C4: concrete tick-to-seconds values. With `ppq = 1920` and the single
tempo event `{tick 0, bpm 120}`, `tick_to_secs 1920 = 1/2`; with tempo
events `[{tick 0, bpm 120}, {tick 1920, bpm 60}]`, `tick_to_secs 1920 = 1/2`
and `tick_to_secs 3840 = 3/2`. (f32 arithmetic modelled exactly; the claimed
values are dyadic and the source's f32 evaluation reaches them too.) -/
theorem tick_to_secs_concrete_values :
    tick_to_secs [⟨0, 0, 120⟩] 1920 1920 = 1/2 ∧
    tick_to_secs [⟨0, 0, 120⟩, ⟨1920, 1/2, 60⟩] 1920 1920 = 1/2 ∧
    tick_to_secs [⟨0, 0, 120⟩, ⟨1920, 1/2, 60⟩] 1920 3840 = 3/2 := by
  refine ⟨?_, ?_, ?_⟩ <;>
    norm_num [tick_to_secs, ttsGo, sec_per_tick]

/-- `Playback` (playback.rs lines 5-12): `time_delta` is the `Instant` the
clock was last re-anchored, modelled as an absolute wall-clock time in
seconds, so `elapsed = now - time_delta`. -/
structure Playback where
  playback_secs : ℚ
  tempo_events : List TempoEvent
  last_pos : ℚ
  is_playing : Bool
  time_delta : ℚ
deriving DecidableEq

/-- `Playback::play_or_stop` (lines 31-41), with the current wall-clock
instant `now`: when playing, stores `last_pos` into `playback_secs` and
stops; when stopped, records `playback_secs` as the new baseline `last_pos`,
re-anchors `time_delta`, and starts playing. -/
def play_or_stop (now : ℚ) (p : Playback) : Playback :=
  if p.is_playing then
    { p with playback_secs := p.last_pos, is_playing := false }
  else
    { p with last_pos := p.playback_secs, time_delta := now, is_playing := true }

/-- The current computed position while playing, as the code computes it at
line 49 of `get_playback_time`: `time_delta.elapsed() + last_pos`. -/
def computedPosition (now : ℚ) (p : Playback) : ℚ := (now - p.time_delta) + p.last_pos

/-- Counterexample to C6: a clock that started playing at position 0 at
wall-clock time 0 and is stopped at wall-clock time 5 has computed position
5, but `play_or_stop` stores `last_pos = 0` into `playback_secs` — the
elapsed wall-clock time since play is discarded, not frozen. -/
theorem play_or_stop_freeze_counterexample :
    (play_or_stop 5 ⟨0, [], 0, true, 0⟩).playback_secs ≠
      computedPosition 5 ⟨0, [], 0, true, 0⟩ := by
  norm_num [play_or_stop, computedPosition]

/-- C6 amended: calling `play_or_stop` while playing sets the stored
position `playback_secs` back to the baseline `last_pos` recorded when play
began (discarding the wall-clock time elapsed since then), clears
`is_playing`, and leaves `last_pos` itself unchanged. -/
theorem play_or_stop_stores_play_baseline (now : ℚ) (p : Playback)
    (h : p.is_playing = true) :
    (play_or_stop now p).playback_secs = p.last_pos ∧
    (play_or_stop now p).is_playing = false ∧
    (play_or_stop now p).last_pos = p.last_pos := by
  simp [play_or_stop, h]

/-- Witness for C6's amended statement at a concrete playing clock. -/
theorem play_or_stop_stores_play_baseline_witness :
    (play_or_stop 5 ⟨7, [], 3, true, 2⟩).playback_secs = 3 ∧
    (play_or_stop 5 ⟨7, [], 3, true, 2⟩).is_playing = false ∧
    (play_or_stop 5 ⟨7, [], 3, true, 2⟩).last_pos = 3 :=
  play_or_stop_stores_play_baseline 5 ⟨7, [], 3, true, 2⟩ rfl

/-! ## Tempo round-trip (C5) -/

/-- Well-formedness of a tempo-list tail relative to an anchor segment
`(lastTick, lastTempo)` whose absolute position is `seconds`: ticks sorted
ascending, tempos positive, and each `time_norm` consistent with the tick
values — equal to the anchor position plus the segment duration, which is
exactly the value `tick_to_secs` assigns to that tick. -/
def chainOK (ppq : ℚ) : List TempoEvent → ℕ → ℚ → ℚ → Prop
  | [], _, _, _ => True
  | ev :: rest, lastTick, lastTempo, seconds =>
      lastTick ≤ ev.time ∧ 0 < ev.tempo ∧
      ev.time_norm =
        seconds + ((ev.time : ℚ) - (lastTick : ℚ)) * sec_per_tick ppq lastTempo ∧
      chainOK ppq rest ev.time ev.tempo ev.time_norm

/-- A tempo-event list sorted ascending by tick, with positive tempos and
`time_norm` consistent with the tick values (`time_norm = tick_to_secs time`).
The anchor is the state `tick_to_secs` starts from: `last_tick = 0`,
`last_tempo = tempo_events[0].tempo`, `seconds = 0`. -/
def tempoListOK (ppq : ℚ) : List TempoEvent → Prop
  | [] => True
  | e0 :: rest => chainOK ppq (e0 :: rest) 0 e0.tempo 0

lemma spt_pos (ppq tempo : ℚ) (hppq : 0 < ppq) (htempo : 0 < tempo) :
    0 < sec_per_tick ppq tempo := by
  unfold sec_per_tick; positivity

lemma spt_mul_cancel (ppq tempo : ℚ) (hppq : ppq ≠ 0) (htempo : tempo ≠ 0) :
    sec_per_tick ppq tempo * (ppq * tempo / 60) = 1 := by
  unfold sec_per_tick; field_simp; ring

/-- `tick_to_secs` never goes below the seconds anchor it starts a segment
from, when the target tick lies at or past the segment start. -/
lemma ttsGo_ge (ppq tick : ℚ) (hppq : 0 < ppq) :
    ∀ (rest : List TempoEvent) (lastTick : ℕ) (lastTempo seconds : ℚ),
      0 < lastTempo → (lastTick : ℚ) ≤ tick →
      chainOK ppq rest lastTick lastTempo seconds →
      seconds ≤ ttsGo ppq tick rest lastTick lastTempo seconds := by
  intro rest
  induction rest with
  | nil =>
    intro lastTick lastTempo seconds htempo htick _
    simp only [ttsGo]
    nlinarith [spt_pos ppq lastTempo hppq htempo]
  | cons ev rest ih =>
    intro lastTick lastTempo seconds htempo htick hOK
    obtain ⟨hle, hevtempo, hnorm, hrest⟩ := hOK
    simp only [ttsGo]
    split_ifs with hbr
    · nlinarith [spt_pos ppq lastTempo hppq htempo]
    · push_neg at hbr
      rw [← hnorm]
      have hlt : (lastTick : ℚ) ≤ (ev.time : ℚ) := by exact_mod_cast hle
      have h2 : seconds ≤ ev.time_norm := by
        rw [hnorm]; nlinarith [spt_pos ppq lastTempo hppq htempo]
      exact le_trans h2 (ih ev.time ev.tempo ev.time_norm hevtempo hbr hrest)

/-- Changing the segment anchor of `ttsGo` does not change its value, as
long as both anchors describe the same affine segment (same tempo, and
`seconds - tick * sec_per_tick` agrees). -/
lemma ttsGo_shift (ppq tick : ℚ) (rest : List TempoEvent) (a b : ℕ)
    (tempo sa sb : ℚ)
    (h : sa - (a : ℚ) * sec_per_tick ppq tempo =
         sb - (b : ℚ) * sec_per_tick ppq tempo) :
    ttsGo ppq tick rest a tempo sa = ttsGo ppq tick rest b tempo sb := by
  cases rest with
  | nil => simp only [ttsGo]; linear_combination h
  | cons ev rest =>
    simp only [ttsGo]
    split_ifs with hbr
    · linear_combination h
    · have harg : sa + ((ev.time : ℚ) - (a : ℚ)) * sec_per_tick ppq tempo =
          sb + ((ev.time : ℚ) - (b : ℚ)) * sec_per_tick ppq tempo := by
        linear_combination h
      rw [harg]

/-- Invariant of the round trip: from any consistent anchor, converting a
tick at or past the anchor to seconds with the `tick_to_secs` loop and back
with the `get_playback_time` loop recovers the tick exactly. -/
lemma roundtrip_go (ppq tick : ℚ) (hppq : 0 < ppq) :
    ∀ (rest : List TempoEvent) (lastTick : ℕ) (lastTempo seconds : ℚ),
      0 < lastTempo → (lastTick : ℚ) ≤ tick →
      chainOK ppq rest lastTick lastTempo seconds →
      gptProj ppq (ttsGo ppq tick rest lastTick lastTempo seconds)
        (gptGo (ttsGo ppq tick rest lastTick lastTempo seconds) rest
          seconds lastTick lastTempo) = tick := by
  intro rest
  induction rest with
  | nil =>
    intro lastTick lastTempo seconds htempo htick _
    have h1 : ppq ≠ 0 := hppq.ne'
    have h2 : lastTempo ≠ 0 := htempo.ne'
    simp only [ttsGo, gptGo, gptProj, sec_per_tick]
    field_simp
    ring
  | cons ev rest ih =>
    intro lastTick lastTempo seconds htempo htick hOK
    obtain ⟨hle, hevtempo, hnorm, hrest⟩ := hOK
    have hspt := spt_pos ppq lastTempo hppq htempo
    by_cases hbr : (ev.time : ℚ) > tick
    · -- the tick lies inside the anchor segment: both loops break here
      have hs : ttsGo ppq tick (ev :: rest) lastTick lastTempo seconds =
          seconds + (tick - (lastTick : ℚ)) * sec_per_tick ppq lastTempo := by
        simp only [ttsGo, if_pos hbr]
      have hgt : ev.time_norm >
          seconds + (tick - (lastTick : ℚ)) * sec_per_tick ppq lastTempo := by
        rw [hnorm]; nlinarith
      rw [hs]
      simp only [gptGo, if_pos hgt]
      have h1 : ppq ≠ 0 := hppq.ne'
      have h2 : lastTempo ≠ 0 := htempo.ne'
      simp only [gptProj, sec_per_tick] at *
      field_simp
      ring
    · -- the event is at or before the tick: both loops step past it
      push_neg at hbr
      have hs : ttsGo ppq tick (ev :: rest) lastTick lastTempo seconds =
          ttsGo ppq tick rest ev.time ev.tempo ev.time_norm := by
        simp only [ttsGo, if_neg (not_lt.mpr hbr)]
        rw [← hnorm]
      have hge : ev.time_norm ≤ ttsGo ppq tick rest ev.time ev.tempo ev.time_norm :=
        ttsGo_ge ppq tick hppq rest ev.time ev.tempo ev.time_norm hevtempo hbr hrest
      rw [hs]
      simp only [gptGo, if_neg (not_lt.mpr hge)]
      exact ih ev.time ev.tempo ev.time_norm hevtempo hbr hrest

/-- C5: tempo round-trip. For every tempo-event list sorted ascending by
tick with `time_norm` consistent with the tick values (`tempoListOK`), and
every tick `t ≥ 0`, converting `t` to seconds with `tick_to_secs` and the
result back to a tick with the seconds→tick conversion of
`get_playback_time` yields `t` again — exactly, in the exact-rational model
(hence in particular within one sample-frame's worth of seconds). -/
theorem tempo_roundtrip (tes : List TempoEvent) (ppq tick : ℚ)
    (hppq : 0 < ppq) (htick : 0 ≤ tick) (hOK : tempoListOK ppq tes) :
    get_playback_time tes ppq (tick_to_secs tes ppq tick) = tick := by
  match tes with
  | [] =>
    have h1 : ppq ≠ 0 := hppq.ne'
    simp only [get_playback_time, tick_to_secs]
    field_simp
  | e0 :: rest =>
    obtain ⟨-, htempo0, hnorm0, hrest⟩ := hOK
    have hspt0 := spt_pos ppq e0.tempo hppq htempo0
    have hnorm0' : e0.time_norm = (e0.time : ℚ) * sec_per_tick ppq e0.tempo := by
      rw [hnorm0]; ring
    simp only [get_playback_time, tick_to_secs]
    by_cases hA : (e0.time : ℚ) ≤ tick
    · -- the head event is at or before the tick
      have hshift : ttsGo ppq tick rest 0 e0.tempo 0 =
          ttsGo ppq tick rest e0.time e0.tempo e0.time_norm :=
        ttsGo_shift ppq tick rest 0 e0.time e0.tempo 0 e0.time_norm
          (by rw [hnorm0']; push_cast; ring)
      have hge : e0.time_norm ≤ ttsGo ppq tick rest e0.time e0.tempo e0.time_norm :=
        ttsGo_ge ppq tick hppq rest e0.time e0.tempo e0.time_norm htempo0 hA hrest
      rw [hshift]
      simp only [gptGo, if_neg (not_lt.mpr hge)]
      exact roundtrip_go ppq tick hppq rest e0.time e0.tempo e0.time_norm
        htempo0 hA hrest
    · -- the tick lies before the head event's tick
      push_neg at hA
      have hs : ttsGo ppq tick rest 0 e0.tempo 0 =
          tick * sec_per_tick ppq e0.tempo := by
        cases rest with
        | nil => simp only [ttsGo]; push_cast; ring
        | cons ev rest' =>
          obtain ⟨hle2, -, -, -⟩ := hrest
          have : (ev.time : ℚ) > tick := by
            have h1 : (e0.time : ℚ) ≤ (ev.time : ℚ) := by exact_mod_cast hle2
            linarith
          simp only [ttsGo, if_pos this]; push_cast; ring
      have hgt : e0.time_norm > tick * sec_per_tick ppq e0.tempo := by
        rw [hnorm0']; nlinarith
      rw [hs]
      simp only [gptGo, if_pos hgt]
      have h1 : ppq ≠ 0 := hppq.ne'
      have h2 : e0.tempo ≠ 0 := htempo0.ne'
      simp only [gptProj]
      rw [hnorm0']
      simp only [sec_per_tick]
      field_simp
      ring

/-- Witness for C5 at the concrete tempo list
`[{tick 0, bpm 120}, {tick 1920, 0.5s, bpm 60}]`, `ppq = 1920`, `t = 3840`. -/
theorem tempo_roundtrip_witness :
    get_playback_time [⟨0, 0, 120⟩, ⟨1920, 1/2, 60⟩] 1920
      (tick_to_secs [⟨0, 0, 120⟩, ⟨1920, 1/2, 60⟩] 1920 3840) = 3840 :=
  tempo_roundtrip [⟨0, 0, 120⟩, ⟨1920, 1/2, 60⟩] 1920 3840 (by norm_num)
    (by norm_num) (by norm_num [tempoListOK, chainOK, sec_per_tick])

/-! ## Producer (generator) event trace and controller (prerenderer.rs) -/

/-- `MIDIEventType` (midi/events.rs lines 10-14). -/
inductive MIDIEventType
  | NoteOff
  | NoteOn
deriving DecidableEq

/-- `MIDIEvent` (midi/events.rs lines 16-21): `time` in seconds (f32, as ℚ),
raw `data` bytes (`data[0]` status byte whose low nibble is the channel,
`data[1]` key, `data[2]` velocity). -/
structure MIDIEvent where
  time : ℚ
  event_type : MIDIEventType
  data : List ℕ
deriving DecidableEq

/-- Rust's `as isize` cast of an f32, truncation toward zero, on the exact
rational model. -/
def qTrunc (q : ℚ) : ℤ := if 0 ≤ q then ⌊q⌋ else -⌊-q⌋

/-- Events the generator sends to the synthesis engine
(`send_event` calls at lines 206-224 of prerenderer.rs). -/
inductive SynthEv
  | noteOn (channel key vel : ℕ)
  | noteOff (channel key : ℕ)
  | allNotesKilled
deriving DecidableEq

/-- The event loop of `PrerenderBuffer::generator_func` (lines 140-225) as
the trace of synthesis-engine events of one run, followed by the final
`AllNotesKilled` send (lines 220-224). `reset i` is the value of the
cancellation flag read at the top of iteration `i` (line 142); `rd i` is the
consumer-owned `read_pos` observed when dispatching event `i`. The
backpressure block (lines 144-171) always leaves
`write_pos = max write_pos targetFrame`: each in-loop write adds
`spare ≤ remaining` (lines 157-159), and whether the throttle loop exits
normally or via a reset break, the leftover `remaining` is written
unconditionally afterwards (lines 167-170); no engine event is emitted by
that block. `NoteOn` events quieter than `get_skipping_velocity` are
dropped (line 205). -/
def genGo (sampleRate : ℚ) (reset : ℕ → Bool) (rd : ℕ → ℕ) :
    List MIDIEvent → ℕ → ℕ → List SynthEv
  | [], _, _ => [SynthEv.allNotesKilled]
  | e :: rest, i, w =>
    if reset i then [SynthEv.allNotesKilled]
    else
      let target := (qTrunc (e.time * sampleRate)).toNat
      let w' := max w target
      match e.event_type with
      | .NoteOn =>
          let vel := e.data.getD 2 0
          if vel < get_skipping_velocity w' (rd i) then
            genGo sampleRate reset rd rest (i + 1) w'
          else
            SynthEv.noteOn (e.data.getD 0 0 % 16) (e.data.getD 1 0) vel ::
              genGo sampleRate reset rd rest (i + 1) w'
      | .NoteOff =>
          SynthEv.noteOff (e.data.getD 0 0 % 16) (e.data.getD 1 0) ::
            genGo sampleRate reset rd rest (i + 1) w'

/-- `PrerenderBuffer::generator_func` (lines 129-225): resets both cursors
to zero (lines 130-131) and runs the event loop from `write_pos = 0`. -/
def generator_func (sampleRate : ℚ) (reset : ℕ → Bool) (rd : ℕ → ℕ)
    (events : List MIDIEvent) : List SynthEv :=
  genGo sampleRate reset rd events 0 0

lemma genGo_kill (sampleRate : ℚ) (reset : ℕ → Bool) (rd : ℕ → ℕ) :
    ∀ (events : List MIDIEvent) (i w : ℕ),
      ∃ pre, genGo sampleRate reset rd events i w = pre ++ [SynthEv.allNotesKilled] ∧
        SynthEv.allNotesKilled ∉ pre := by
  intro events
  induction events with
  | nil => intro i w; exact ⟨[], rfl, by simp⟩
  | cons e rest ih =>
    intro i w
    by_cases hres : reset i
    · exact ⟨[], by simp [genGo, hres], by simp⟩
    · obtain ⟨pre, hpre, hmem⟩ :=
        ih (i + 1) (max w (qTrunc (e.time * sampleRate)).toNat)
      cases hety : e.event_type with
      | NoteOn =>
        by_cases hskip : e.data[2]?.getD 0 <
            get_skipping_velocity (max w (qTrunc (e.time * sampleRate)).toNat) (rd i)
        · exact ⟨pre, by simp [genGo, hres, hety, hskip, hpre], hmem⟩
        · refine ⟨SynthEv.noteOn (e.data.getD 0 0 % 16) (e.data.getD 1 0)
            (e.data.getD 2 0) :: pre, by simp [genGo, hres, hety, hskip, hpre], ?_⟩
          simp [hmem]
      | NoteOff =>
        refine ⟨SynthEv.noteOff (e.data.getD 0 0 % 16) (e.data.getD 1 0) :: pre,
          by simp [genGo, hres, hety, hpre], ?_⟩
        simp [hmem]

/-- C8: every run of the producer sends the "all notes killed" event to the
synthesis engine exactly once, and it is the last event of the run's trace —
both when the event list is exhausted normally and when the cancellation
flag ends the run early (any `reset` oracle, including ones that fire
mid-list). -/
theorem generator_all_notes_killed_once (sampleRate : ℚ) (reset : ℕ → Bool)
    (rd : ℕ → ℕ) (events : List MIDIEvent) :
    (generator_func sampleRate reset rd events).count SynthEv.allNotesKilled = 1 ∧
    (generator_func sampleRate reset rd events).getLast? =
      some SynthEv.allNotesKilled := by
  obtain ⟨pre, hpre, hmem⟩ := genGo_kill sampleRate reset rd events 0 0
  unfold generator_func
  rw [hpre]
  constructor
  · rw [List.count_append, List.count_eq_zero.mpr hmem]
    simp
  · simp

/-- The pending-event and reset state of `PrerenderedAudio` relevant to
`start` (prerenderer.rs lines 243, 248). -/
structure Controller where
  events : List MIDIEvent
  reset_requested : Bool
deriving DecidableEq

/-- `PrerenderedAudio::start_render_thread` (lines 436-447): moves the stored
events out with `std::mem::take` (leaving the controller's list empty) and
hands them to the spawned producer. Returns the moved-out events and the
new controller state. -/
def start_render_thread (c : Controller) : List MIDIEvent × Controller :=
  (c.events, { c with events := [] })

/-- `PrerenderedAudio::start` (lines 456-460): `kill_last_generator` (sets
the reset flag and joins the old producer), clear the reset flag, spawn a
new producer over the taken events. -/
def start (c : Controller) : List MIDIEvent × Controller :=
  let c1 : Controller := { c with reset_requested := true }
  let c2 : Controller := { c1 with reset_requested := false }
  start_render_thread c2

/-- C10: `start` consumes the pending event list — the spawned producer
takes the stored events by moving them out, leaving the controller's list
empty — so a second `start` without an intervening `set_events` hands the
producer an empty list, whose run performs no note dispatch and produces
exactly the single all-notes-killed event. -/
theorem start_consumes_events (c : Controller) (sampleRate : ℚ)
    (reset : ℕ → Bool) (rd : ℕ → ℕ) :
    (start c).1 = c.events ∧
    (start c).2.events = [] ∧
    (start ((start c).2)).1 = [] ∧
    generator_func sampleRate reset rd (start ((start c).2)).1 =
      [SynthEv.allNotesKilled] := by
  exact ⟨rfl, rfl, rfl, rfl⟩

end Andromeda
